import Mathlib

/-!
Verification of the data pipeline of the Nigeria rainfall dashboard
(`app.py`).  The source loads a wide geospatial table (one row per state,
one `{year}_mean` column per year 2014..2024), melts it to a long-form
(region, year, rainfall) table, and answers selection queries: slice by
year, top-3/bottom-3 ranking, national mean (rounded to 3 decimals),
per-region time series, distinct sorted year/region lists, and selector
defaults.  Numeric rainfall values are modelled as rationals, machine
floats being replaced by exact arithmetic; pandas `nlargest`/`nsmallest`
(keep='first') are modelled as a stable sort followed by `take`;
`st.cache_data` is modelled with its documented copy-on-return semantics,
so the cache entry is a value distinct from the per-run table.
-/

namespace Rainfall

/-- `RegionYearRecord`: one row of the long-form table `df_new`
(columns `State`, `Year`, `Rainfall (mm)`), app.py lines 28-34. -/
structure Record where
  region : String
  year : Int
  rain : ℚ
deriving DecidableEq

/-- One feature of the wide source table `gdf`: a `State` attribute plus a
numeric attribute per column name (the `{year}_mean` columns; geometry is
irrelevant to the pipeline and omitted). -/
structure WideRow where
  state : String
  attr : String → ℚ

/-- The configured year range: `range(2014, 2025)` at app.py line 30. -/
def yearRangeNat : List Nat := List.range' 2014 11

/-- Column name for a year: `f"{year}_mean"` (app.py line 30). -/
def colName (y : Nat) : String := toString y ++ "_mean"

/-- `value_vars=[f"{year}_mean" for year in range(2014, 2025)]`. -/
def valueVars : List String := yearRangeNat.map colName

/-- A row of the melted frame before the `Year` column is converted to
integers: `State`, the original column name in `Year`, and the value. -/
structure MeltRow where
  state : String
  yearCol : String
  value : ℚ
deriving DecidableEq

/-- `gdf.melt(id_vars=["State"], value_vars=..., var_name="Year",
value_name="Rainfall (mm)")` (app.py lines 28-33).  pandas `melt` emits,
for each value column in order, one row per source row. -/
def melt (t : List WideRow) : List MeltRow :=
  valueVars.flatMap fun c => t.map fun r => ⟨r.state, c, r.attr c⟩

/-- Replace every occurrence of `pat` in `s`, left to right, fuelled by the
length of `s` (each step consumes at least one character). -/
def replaceAllAux (pat repl : List Char) : Nat → List Char → List Char
  | 0, s => s
  | fuel + 1, s =>
    match s with
    | [] => []
    | c :: rest =>
      if pat.isPrefixOf s then repl ++ replaceAllAux pat repl fuel (s.drop pat.length)
      else c :: replaceAllAux pat repl fuel rest

/-- Python `str.replace(pat, repl)` (all occurrences, literal pattern), as
used by `.str.replace("_mean", "")` at app.py line 34. -/
def replaceAll (s pat repl : String) : String :=
  if pat.data.isEmpty then s
  else ⟨replaceAllAux pat.data repl.data s.data.length s.data⟩

/-- Digit accumulator for decimal parsing. -/
def parseNatAux : List Char → Nat → Option Nat
  | [], acc => some acc
  | c :: cs, acc =>
    if c.isDigit then parseNatAux cs (acc * 10 + (c.toNat - '0'.toNat)) else none

/-- A non-empty all-digit character list parsed as a natural number. -/
def parseNatDigits : List Char → Option Nat
  | [] => none
  | c :: cs => parseNatAux (c :: cs) 0

/-- Python `int(s)` restricted to an optional sign followed by digits,
the failure case modelling the `ValueError` of `.astype(int)`. -/
def parseIntStr (s : String) : Option Int :=
  match s.data with
  | '-' :: rest => (parseNatDigits rest).map fun n => -(n : Int)
  | l => (parseNatDigits l).map fun n => (n : Int)

/-- The year token of a value column:
`df_new["Year"].str.replace("_mean", "").astype(int)` (app.py line 34). -/
def yearToken (c : String) : Option Int := parseIntStr (replaceAll c "_mean" "")

/-- Modelled from the spec: the spec describes the year token as obtained
by "stripping a fixed suffix" `_mean` and parsing the remainder; this is
the comparison definition for that wording (the source instead replaces
every occurrence of `_mean`). -/
def yearTokenStripped (c : String) : Option Int :=
  parseIntStr
    (if ("_mean".data).isSuffixOf c.data then
      ⟨c.data.take (c.data.length - ("_mean".data).length)⟩
     else c)

/-- Load-time error taxonomy relevant to the reshaping step. -/
inductive Err
  | malformedColumn
deriving DecidableEq

/-- Convert the melted rows' `Year` strings to integers, failing with
`MalformedColumn` when some column name does not parse (the `.astype(int)`
of app.py line 34). -/
def parseRows : List MeltRow → Except Err (List Record)
  | [] => .ok []
  | m :: ms =>
    match yearToken m.yearCol with
    | none => .error .malformedColumn
    | some y =>
      match parseRows ms with
      | .error e => .error e
      | .ok rs => .ok (⟨m.state, y, m.value⟩ :: rs)

/-- The full reshaping `toLongForm`: melt then convert the year column
(app.py lines 28-34). -/
def toLongForm (t : List WideRow) : Except Err (List Record) :=
  parseRows (melt t)

/-- The expected long-form value: one record per (year column, source row)
pair, in melt order. -/
def longForm (t : List WideRow) : List Record :=
  yearRangeNat.flatMap fun y => t.map fun r => ⟨r.state, (y : Int), r.attr (colName y)⟩

/-- `sliceByYear`: `df_new[df_new['Year'] == year_selected]` (line 50). -/
def sliceByYear (rs : List Record) (y : Int) : List Record :=
  rs.filter fun r => r.year == y

/-- Ordering of records by year, for `sort_values('Year')`. -/
def leYear (a b : Record) : Prop := a.year ≤ b.year

instance : DecidableRel leYear := fun a b => (inferInstance : Decidable (a.year ≤ b.year))

instance : IsTotal Record leYear := ⟨fun a b => Int.le_total a.year b.year⟩

instance : IsTrans Record leYear := ⟨fun _ _ _ h h' => le_trans h h'⟩

/-- `seriesForRegion`: `df_new[df_new['State'] == state_selected]
.sort_values('Year')` (app.py line 143). -/
def seriesForRegion (rs : List Record) (g : String) : List Record :=
  List.insertionSort leYear (rs.filter fun r => r.region == g)

/-- Descending order on rainfall, for `nlargest`. -/
def geRain (a b : Record) : Prop := b.rain ≤ a.rain

/-- Ascending order on rainfall, for `nsmallest`. -/
def leRain (a b : Record) : Prop := a.rain ≤ b.rain

instance : DecidableRel geRain := fun a b => (inferInstance : Decidable (b.rain ≤ a.rain))

instance : DecidableRel leRain := fun a b => (inferInstance : Decidable (a.rain ≤ b.rain))

instance : IsTotal Record geRain := ⟨fun a b => le_total b.rain a.rain⟩

instance : IsTotal Record leRain := ⟨fun a b => le_total a.rain b.rain⟩

instance : IsTrans Record geRain := ⟨fun _ _ _ h h' => le_trans h' h⟩

instance : IsTrans Record leRain := ⟨fun _ _ _ h h' => le_trans h h'⟩

/-- `year_data.nlargest(3, 'Rainfall (mm)')` (app.py line 78): stable
descending sort by rainfall, first 3 rows (pandas `keep='first'`). -/
def top3 (ydata : List Record) : List Record :=
  (List.insertionSort geRain ydata).take 3

/-- `year_data.nsmallest(3, 'Rainfall (mm)')` (app.py line 79): stable
ascending sort by rainfall, first 3 rows. -/
def low3 (ydata : List Record) : List Record :=
  (List.insertionSort leRain ydata).take 3

/-- What the side panel renders for a ranking result: a table when rows
exist, the "No data" message otherwise (app.py lines 82-91). -/
inductive Display
  | table (rows : List Record)
  | noData
deriving DecidableEq

/-- `if not top3.empty: st.table(...) else: st.write("No data")`. -/
def topDisplay (ydata : List Record) : Display :=
  if (top3 ydata).isEmpty then .noData else .table (top3 ydata)

/-- `if not low3.empty: st.table(...) else: st.write("No data")`. -/
def lowDisplay (ydata : List Record) : Display :=
  if (low3 ydata).isEmpty then .noData else .table (low3 ydata)

/-- pandas `Series.sum`: a left fold of addition from 0. -/
def sumFold (l : List ℚ) : ℚ := l.foldl (· + ·) 0

/-- pandas `Series.mean`: sum divided by count, `NaN` (modelled as `none`)
on an empty series. -/
def seriesMean (l : List ℚ) : Option ℚ :=
  if l.isEmpty then none else some (sumFold l / l.length)

/-- numpy rounding of a rational to the nearest integer, ties to even
(the rounding used by `.round(3)`). -/
def rhe (q : ℚ) : Int :=
  if q - ⌊q⌋ < 1 / 2 then ⌊q⌋
  else if (1 : ℚ) / 2 < q - ⌊q⌋ then ⌊q⌋ + 1
  else if ⌊q⌋ % 2 = 0 then ⌊q⌋ else ⌊q⌋ + 1

/-- Round to 3 decimal digits, as `.round(3)`. -/
def round3 (q : ℚ) : ℚ := (rhe (q * 1000) : ℚ) / 1000

/-- `national_avg = year_data["Rainfall (mm)"].mean().round(3)`
(app.py line 95); rounding a `NaN` mean stays `NaN`. -/
def nationalMean (ydata : List Record) : Option ℚ :=
  (seriesMean (ydata.map (·.rain))).map round3

/-- `mcolors.Normalize(vmin, vmax)` applied to `x` (app.py lines 98-101):
linear rescaling of `x` onto `[vmin, vmax] → [0, 1]`. -/
def normalize (vmin vmax x : ℚ) : ℚ := (x - vmin) / (vmax - vmin)

/-- First-occurrence deduplication with an accumulator of already seen
values: the order-preserving part of pandas `Series.unique`. -/
def uniqueFirstAux [DecidableEq α] (seen : List α) : List α → List α
  | [] => []
  | a :: l => if a ∈ seen then uniqueFirstAux seen l else a :: uniqueFirstAux (a :: seen) l

/-- pandas `Series.unique`: values in first-occurrence order. -/
def uniqueFirst [DecidableEq α] (l : List α) : List α := uniqueFirstAux [] l

/-- Python `sorted(series.unique())` (app.py lines 37-38). -/
def sortedUnique [LinearOrder α] [DecidableEq α] (l : List α) : List α :=
  List.insertionSort (· ≤ ·) (uniqueFirst l)

/-- `years = sorted(df_new["Year"].unique())` (app.py line 37). -/
def distinctYears (rs : List Record) : List Int :=
  sortedUnique (rs.map (·.year))

/-- `states = sorted(df_new["State"].unique())` (app.py line 38). -/
def distinctRegions (rs : List Record) : List String :=
  sortedUnique (rs.map (·.region))

/-- The year selector default: `st.selectbox(..., years,
index=len(years)-1)` selects `years[len(years)-1]` (app.py line 46). -/
def defaultYear (ys : List Int) : Option Int := ys[ys.length - 1]?

/-- The region selector default: `st.selectbox(..., states, index=0)`
selects `states[0]` (app.py line 142). -/
def defaultRegion (ss : List String) : Option String := ss[0]?

/-- Process-wide state held by `st.cache_data` for `load_data`. -/
structure ProcState where
  cache : Option (List WideRow)

/-- `@st.cache_data def load_data(): return gpd.read_file(...)` (app.py
lines 13-17): on a miss the file contents are read and cached; on a hit
the cached value is returned.  `st.cache_data` returns a copy of the
cached value on every call, so the returned table is an independent value
and mutating it never alters the cache entry. -/
def load_data (disk : List WideRow) (s : ProcState) : List WideRow × ProcState :=
  match s.cache with
  | some t => (t, s)
  | none => (disk, ⟨some disk⟩)

/-- `gdf['Rainfall (mm)'] = gdf[column_name].astype(float)` (app.py
lines 57-58): the per-run table gains a derived column. -/
def addRainfallColumn (t : List WideRow) (y : Nat) : List WideRow :=
  t.map fun r =>
    ⟨r.state, fun c => if c = "Rainfall (mm)" then r.attr (colName y) else r.attr c⟩

/-- One script rerun with the selected year `y`: load (through the cache),
then derive the per-run display column. -/
def scriptRun (disk : List WideRow) (s : ProcState) (y : Nat) : List WideRow × ProcState :=
  let p := load_data disk s
  (addRainfallColumn p.1 y, p.2)

/-- The process state after a sequence of reruns with the given selected
years, starting from an empty cache. -/
def runAll (disk : List WideRow) (ys : List Nat) : ProcState :=
  ys.foldl (fun s y => (scriptRun disk s y).2) ⟨none⟩

/-- A sample two-region wide table used to instantiate hypotheses. -/
def sampleTable : List WideRow :=
  [⟨"A", fun _ => 5⟩, ⟨"B", fun _ => 7⟩]

/-- A sample six-region year slice with pairwise distinct rainfall. -/
def sampleSlice6 : List Record :=
  [⟨"A", 2014, 1⟩, ⟨"B", 2014, 6⟩, ⟨"C", 2014, 3⟩,
   ⟨"D", 2014, 2⟩, ⟨"E", 2014, 5⟩, ⟨"F", 2014, 4⟩]

/-- A sample year slice with fewer than 3 rows. -/
def sampleSlice2 : List Record := [⟨"A", 2014, 1⟩, ⟨"B", 2014, 6⟩]

/-- A sample slice realizing the spec's worked mean example. -/
def sampleMean3 : List Record :=
  [⟨"A", 2014, 800⟩, ⟨"B", 2014, 1000⟩, ⟨"C", 2014, 1200⟩]

lemma yearToken_colName : ∀ y ∈ yearRangeNat, yearToken (colName y) = some (y : Int) := by
  decide

lemma parseRows_append_ok {a b : List MeltRow} {ra rb : List Record}
    (ha : parseRows a = .ok ra) (hb : parseRows b = .ok rb) :
    parseRows (a ++ b) = .ok (ra ++ rb) := by
  induction a generalizing ra with
  | nil =>
    simp only [parseRows, Except.ok.injEq] at ha
    subst ha
    simpa using hb
  | cons m ms ih =>
    simp only [parseRows, List.cons_append] at ha ⊢
    cases hy : yearToken m.yearCol with
    | none => simp [hy] at ha
    | some y =>
      simp only [hy] at ha ⊢
      cases hp : parseRows ms with
      | error e => simp [hp] at ha
      | ok rs =>
        simp only [hp, Except.ok.injEq] at ha
        subst ha
        rw [List.append_eq, ih hp]
        rfl

lemma parseRows_map_col (t : List WideRow) {c : String} {y : Int}
    (h : yearToken c = some y) :
    parseRows (t.map fun r => (⟨r.state, c, r.attr c⟩ : MeltRow)) =
      .ok (t.map fun r => (⟨r.state, y, r.attr c⟩ : Record)) := by
  induction t with
  | nil => rfl
  | cons r t ih => simp only [List.map_cons, parseRows, h, ih]

lemma parseRows_flatMap (t : List WideRow) (l : List Nat)
    (hl : ∀ y ∈ l, yearToken (colName y) = some (y : Int)) :
    parseRows ((l.map colName).flatMap fun c =>
        t.map fun r => (⟨r.state, c, r.attr c⟩ : MeltRow)) =
      .ok (l.flatMap fun y =>
        t.map fun r => (⟨r.state, (y : Int), r.attr (colName y)⟩ : Record)) := by
  induction l with
  | nil => rfl
  | cons y l ih =>
    simp only [List.map_cons, List.flatMap_cons]
    exact parseRows_append_ok (parseRows_map_col t (hl y (by simp)))
      (ih fun z hz => hl z (List.mem_cons_of_mem _ hz))

lemma toLongForm_eq (t : List WideRow) : toLongForm t = .ok (longForm t) := by
  have h := parseRows_flatMap t yearRangeNat yearToken_colName
  simpa [toLongForm, melt, valueVars, longForm] using h

lemma longForm_length (t : List WideRow) :
    (longForm t).length = t.length * yearRangeNat.length := by
  simp only [longForm, List.length_flatMap, Function.comp_def, List.length_map]
  rw [List.map_const']
  simp [List.sum_replicate, Nat.mul_comm]

lemma slice_flatMap (t : List WideRow) (l : List Nat) (hl : l.Nodup) {y : Nat}
    (hy : y ∈ l) :
    List.filter (fun r => r.year == (y : Int))
        (l.flatMap fun z =>
          t.map fun r => (⟨r.state, (z : Int), r.attr (colName z)⟩ : Record)) =
      t.map fun r => (⟨r.state, (y : Int), r.attr (colName y)⟩ : Record) := by
  induction l with
  | nil => cases hy
  | cons z l ih =>
    simp only [List.flatMap_cons, List.filter_append]
    rcases List.mem_cons.mp hy with rfl | hy'
    · have h1 : List.filter (fun r => r.year == (y : Int))
          (t.map fun r => (⟨r.state, (y : Int), r.attr (colName y)⟩ : Record)) =
          t.map fun r => (⟨r.state, (y : Int), r.attr (colName y)⟩ : Record) := by
        apply List.filter_eq_self.mpr
        intro a ha
        obtain ⟨r, _, rfl⟩ := List.mem_map.mp ha
        simp
      have h2 : List.filter (fun r => r.year == (y : Int))
          (l.flatMap fun z =>
            t.map fun r => (⟨r.state, (z : Int), r.attr (colName z)⟩ : Record)) =
          [] := by
        apply List.filter_eq_nil_iff.mpr
        intro a ha
        obtain ⟨z, hz, ha⟩ := List.mem_flatMap.mp ha
        obtain ⟨r, _, rfl⟩ := List.mem_map.mp ha
        have hzy : z ≠ y := fun h => (List.nodup_cons.mp hl).1 (h ▸ hz)
        simp [hzy]
      rw [h1, h2, List.append_nil]
    · have hzy : z ≠ y := fun h => (List.nodup_cons.mp hl).1 (h ▸ hy')
      have h1 : List.filter (fun r => r.year == (y : Int))
          (t.map fun r => (⟨r.state, (z : Int), r.attr (colName z)⟩ : Record)) = [] := by
        apply List.filter_eq_nil_iff.mpr
        intro a ha
        obtain ⟨r, _, rfl⟩ := List.mem_map.mp ha
        simp [hzy]
      rw [h1, List.nil_append, ih (List.nodup_cons.mp hl).2 hy']

lemma slice_longForm (t : List WideRow) {y : Nat} (hy : y ∈ yearRangeNat) :
    sliceByYear (longForm t) (y : Int) =
      t.map fun r => (⟨r.state, (y : Int), r.attr (colName y)⟩ : Record) :=
  slice_flatMap t yearRangeNat (List.nodup_range' _ _) hy

lemma filter_state_unique {t : List WideRow} (hnd : (t.map (·.state)).Nodup)
    {g : String} (hg : g ∈ t.map (·.state)) :
    ∃ r0, r0 ∈ t ∧ r0.state = g ∧ t.filter (fun r => r.state == g) = [r0] := by
  induction t with
  | nil => cases hg
  | cons r t ih =>
    simp only [List.map_cons, List.nodup_cons] at hnd
    rcases List.mem_cons.mp hg with hrg | hg'
    · replace hrg : g = r.state := hrg
      subst hrg
      refine ⟨r, List.mem_cons_self _ _, rfl, ?_⟩
      have hrest : t.filter (fun r' => r'.state == r.state) = [] := by
        apply List.filter_eq_nil_iff.mpr
        intro a ha
        have hne : a.state ≠ r.state := by
          intro h
          have mem : a.state ∈ t.map (·.state) := List.mem_map_of_mem (·.state) ha
          rw [h] at mem
          exact hnd.1 mem
        simp [hne]
      simp [List.filter_cons, hrest]
    · obtain ⟨r0, hr0t, hr0s, hfil⟩ := ih hnd.2 hg'
      have hrg : r.state ≠ g := by
        intro h
        apply hnd.1
        rw [h]
        exact hg'
      exact ⟨r0, List.mem_cons_of_mem _ hr0t, hr0s,
        by simp [List.filter_cons, hrg, hfil]⟩

lemma series_longForm (t : List WideRow) (hnd : (t.map (·.state)).Nodup)
    {g : String} (hg : g ∈ t.map (·.state)) :
    ∃ r0, r0 ∈ t ∧ r0.state = g ∧
      seriesForRegion (longForm t) g =
        yearRangeNat.map fun y : Nat => (⟨g, (y : Int), r0.attr (colName y)⟩ : Record) := by
  obtain ⟨r0, hr0t, hr0s, hfil⟩ := filter_state_unique hnd hg
  refine ⟨r0, hr0t, hr0s, ?_⟩
  have hblock : ∀ y : Nat,
      List.filter (fun r => r.region == g)
        (t.map fun r => (⟨r.state, (y : Int), r.attr (colName y)⟩ : Record)) =
      [(⟨g, (y : Int), r0.attr (colName y)⟩ : Record)] := by
    intro y
    rw [List.filter_map]
    have hcomp : ((fun r : Record => r.region == g) ∘
        fun r : WideRow => (⟨r.state, (y : Int), r.attr (colName y)⟩ : Record)) =
        fun r : WideRow => r.state == g := rfl
    rw [hcomp, hfil, List.map_cons, List.map_nil, hr0s]
  have hfl : List.filter (fun r => r.region == g) (longForm t) =
      yearRangeNat.map fun y : Nat => (⟨g, (y : Int), r0.attr (colName y)⟩ : Record) := by
    rw [longForm, List.filter_flatMap]
    have : (fun y : Nat =>
        List.filter (fun r => r.region == g)
          (t.map fun r => (⟨r.state, (y : Int), r.attr (colName y)⟩ : Record))) =
        fun y : Nat => [(⟨g, (y : Int), r0.attr (colName y)⟩ : Record)] := by
      funext y
      exact hblock y
    rw [this, ← List.flatMap_map
      (fun y : Nat => (⟨g, (y : Int), r0.attr (colName y)⟩ : Record))
      (fun r => [r]) yearRangeNat]
    exact List.flatMap_singleton' _
  have hsorted : List.Sorted leYear
      (yearRangeNat.map fun y : Nat => (⟨g, (y : Int), r0.attr (colName y)⟩ : Record)) := by
    apply List.Pairwise.map
    · intro a b hab
      exact Int.ofNat_le.mpr (Nat.le_of_lt hab)
    · exact List.pairwise_lt_range' _ _
  rw [seriesForRegion, hfl, hsorted.insertionSort_eq]

/-- C5: for every region present in the long-form table (region names of
the wide table being distinct), `seriesForRegion` returns exactly one
record per year of the configured range 2014..2024, strictly ascending by
year with no gaps, every record carrying the requested region. -/
theorem seriesForRegion_complete (t : List WideRow)
    (hnd : (t.map (·.state)).Nodup) {g : String} (hg : g ∈ t.map (·.state)) :
    (seriesForRegion (longForm t) g).map (·.year) =
      yearRangeNat.map (fun y => (y : Int)) ∧
    (seriesForRegion (longForm t) g).Pairwise (fun a b => a.year < b.year) ∧
    ∀ r ∈ seriesForRegion (longForm t) g, r.region = g := by
  obtain ⟨r0, hr0t, hr0s, hser⟩ := series_longForm t hnd hg
  refine ⟨?_, ?_, ?_⟩
  · rw [hser, List.map_map]
    rfl
  · rw [hser]
    apply List.Pairwise.map
    · intro a b hab
      exact Int.ofNat_lt.mpr hab
    · exact List.pairwise_lt_range' _ _
  · intro r hr
    rw [hser] at hr
    obtain ⟨y, _, rfl⟩ := List.mem_map.mp hr
    rfl

/-- C5 witness: at the concrete two-region table, the series for region
"A" covers exactly the years 2014..2024 in ascending order. -/
theorem seriesForRegion_complete_witness :
    (seriesForRegion (longForm sampleTable) "A").map (·.year) =
      yearRangeNat.map (fun y => (y : Int)) :=
  (seriesForRegion_complete sampleTable (by decide) (by decide)).1

/-- C1: reshaping the wide table to long form produces exactly one record
per (region, year) pair over years 2014..2024: `toLongForm` succeeds with
the full Cartesian product, N×Y records in total, each year slice has
exactly N = number-of-regions rows, and (for distinct region names) each
(region, year) pair occurs exactly once. -/
theorem toLongForm_cartesian_product (t : List WideRow) :
    toLongForm t = .ok (longForm t) ∧
    (longForm t).length = t.length * yearRangeNat.length ∧
    (∀ y ∈ yearRangeNat, (sliceByYear (longForm t) (y : Int)).length = t.length) ∧
    ((t.map (·.state)).Nodup →
      ∀ g ∈ t.map (·.state), ∀ y ∈ yearRangeNat,
        (longForm t).countP (fun r => r.region == g && r.year == (y : Int)) = 1) := by
  refine ⟨toLongForm_eq t, longForm_length t, ?_, ?_⟩
  · intro y hy
    rw [slice_longForm t hy, List.length_map]
  · intro hnd g hg y hy
    have hslice := slice_longForm t hy
    have hcp : (longForm t).countP (fun r => r.region == g && r.year == (y : Int)) =
        (sliceByYear (longForm t) (y : Int)).countP (fun r => r.region == g) := by
      rw [sliceByYear, List.countP_filter]
    rw [hcp, hslice, List.countP_map]
    obtain ⟨r0, hr0t, hr0s, hfil⟩ := filter_state_unique hnd hg
    have : (t.filter fun r => r.state == g).length = 1 := by rw [hfil]; rfl
    rw [← List.countP_eq_length_filter] at this
    simpa [Function.comp_def] using this

/-- C1 witness: at a concrete two-region table, the 2014 slice has 2 rows
and region "A" occurs exactly once in it. -/
theorem toLongForm_cartesian_product_witness :
    (sliceByYear (longForm sampleTable) ((2014 : Nat) : Int)).length = 2 ∧
    ((longForm sampleTable).countP
      (fun r => r.region == "A" && r.year == ((2014 : Nat) : Int))) = 1 := by
  constructor
  · have h := (toLongForm_cartesian_product sampleTable).2.2.1 2014 (by decide)
    simpa using h
  · exact (toLongForm_cartesian_product sampleTable).2.2.2 (by decide) "A" (by decide)
      2014 (by decide)

/-- C3: `rankExtremes(slice, 3)` returns at most 3 rows on each side,
descending (resp. ascending) by rainfall; with fewer than 3 rows it
returns all available rows (as a permutation, no padding, no error); and
whenever both sides are non-empty and disjoint, the minimum value of the
top set is at least the maximum value of the bottom set. -/
theorem rankExtremes_spec (s : List Record) :
    (top3 s).length ≤ 3 ∧ (low3 s).length ≤ 3 ∧
    (top3 s).Sorted geRain ∧ (low3 s).Sorted leRain ∧
    (s.length < 3 → (top3 s).Perm s ∧ (low3 s).Perm s) ∧
    (∀ m M, ((top3 s).map (·.rain)).min? = some m →
      ((low3 s).map (·.rain)).max? = some M →
      (∀ r ∈ top3 s, r ∉ low3 s) → M ≤ m) := by
  refine ⟨List.length_take_le _ _, List.length_take_le _ _, ?_, ?_, ?_, ?_⟩
  · exact List.Pairwise.sublist (List.take_sublist _ _) (List.sorted_insertionSort _ _)
  · exact List.Pairwise.sublist (List.take_sublist _ _) (List.sorted_insertionSort _ _)
  · intro hlen
    constructor
    · rw [top3, List.take_of_length_le (by rw [List.length_insertionSort]; omega)]
      exact List.perm_insertionSort _ _
    · rw [low3, List.take_of_length_le (by rw [List.length_insertionSort]; omega)]
      exact List.perm_insertionSort _ _
  · intro m M hm hM hdis
    obtain ⟨a, ha, rfl⟩ := List.mem_map.mp (List.min?_mem (fun a b => min_choice a b) hm)
    obtain ⟨b, hb, rfl⟩ := List.mem_map.mp (List.max?_mem (fun a b => max_choice a b) hM)
    have hbnot : b ∉ top3 s := fun hbt => hdis b hbt hb
    have hbs : b ∈ List.insertionSort geRain s := by
      rw [List.mem_insertionSort]
      exact (List.mem_insertionSort leRain).mp (List.mem_of_mem_take hb)
    rw [← List.take_append_drop 3 (List.insertionSort geRain s)] at hbs
    rcases List.mem_append.mp hbs with hbt | hbd
    · exact absurd hbt hbnot
    · have hpw : List.Pairwise geRain (List.insertionSort geRain s) :=
        List.sorted_insertionSort _ _
      rw [← List.take_append_drop 3 (List.insertionSort geRain s)] at hpw
      exact (List.pairwise_append.mp hpw).2.2 a ha b hbd

/-- C3 witness: at a 6-row slice the bottom set's maximum (3) is at most
the top set's minimum (4); at a 2-row slice both rankings return all
available rows. -/
theorem rankExtremes_spec_witness :
    ((3 : ℚ) ≤ 4) ∧ (top3 sampleSlice2).Perm sampleSlice2 := by
  constructor
  · exact (rankExtremes_spec sampleSlice6).2.2.2.2.2 4 3 (by decide) (by decide) (by decide)
  · exact ((rankExtremes_spec sampleSlice2).2.2.2.2.1 (by decide)).1

lemma mem_uniqueFirstAux [DecidableEq α] (seen : List α) (l : List α) (x : α) :
    x ∈ uniqueFirstAux seen l ↔ x ∈ l ∧ x ∉ seen := by
  induction l generalizing seen with
  | nil => simp [uniqueFirstAux]
  | cons a l ih =>
    by_cases h : a ∈ seen
    · rw [uniqueFirstAux, if_pos h, ih]
      constructor
      · exact fun hx => ⟨List.mem_cons_of_mem _ hx.1, hx.2⟩
      · rintro ⟨hx, hs⟩
        rcases List.mem_cons.mp hx with rfl | hx'
        · exact absurd h hs
        · exact ⟨hx', hs⟩
    · rw [uniqueFirstAux, if_neg h]
      constructor
      · intro hx
        rcases List.mem_cons.mp hx with rfl | hx'
        · exact ⟨List.mem_cons_self _ _, h⟩
        · obtain ⟨h1, h2⟩ := (ih _).mp hx'
          exact ⟨List.mem_cons_of_mem _ h1,
            fun hs => h2 (List.mem_cons_of_mem _ hs)⟩
      · rintro ⟨hx, hs⟩
        rcases List.mem_cons.mp hx with rfl | hx'
        · exact List.mem_cons_self _ _
        · by_cases hxa : x = a
          · subst hxa
            exact List.mem_cons_self _ _
          · exact List.mem_cons_of_mem _ ((ih _).mpr
              ⟨hx', by simp [List.mem_cons, hxa, hs]⟩)

lemma nodup_uniqueFirstAux [DecidableEq α] (seen l : List α) :
    (uniqueFirstAux seen l).Nodup := by
  induction l generalizing seen with
  | nil => simp [uniqueFirstAux]
  | cons a l ih =>
    by_cases h : a ∈ seen
    · rw [uniqueFirstAux, if_pos h]
      exact ih seen
    · rw [uniqueFirstAux, if_neg h]
      refine List.nodup_cons.mpr ⟨?_, ih _⟩
      intro hmem
      exact ((mem_uniqueFirstAux _ _ _).mp hmem).2 (List.mem_cons_self _ _)

lemma mem_uniqueFirst [DecidableEq α] (l : List α) (x : α) :
    x ∈ uniqueFirst l ↔ x ∈ l := by
  simp [uniqueFirst, mem_uniqueFirstAux]

lemma nodup_uniqueFirst [DecidableEq α] (l : List α) : (uniqueFirst l).Nodup :=
  nodup_uniqueFirstAux [] l

lemma uniqueFirstAux_eq_self [DecidableEq α] :
    ∀ {l : List α}, l.Nodup → ∀ seen, (∀ x ∈ l, x ∉ seen) →
      uniqueFirstAux seen l = l := by
  intro l
  induction l with
  | nil => intro _ seen _; rfl
  | cons a l ih =>
    intro hnd seen hdis
    rw [uniqueFirstAux, if_neg (hdis a (List.mem_cons_self _ _))]
    congr 1
    apply ih (List.nodup_cons.mp hnd).2
    intro x hx
    intro hmem
    rcases List.mem_cons.mp hmem with rfl | hmem'
    · exact (List.nodup_cons.mp hnd).1 hx
    · exact hdis x (List.mem_cons_of_mem _ hx) hmem'

lemma uniqueFirst_eq_self [DecidableEq α] {l : List α} (h : l.Nodup) :
    uniqueFirst l = l :=
  uniqueFirstAux_eq_self h [] (by simp)

lemma sortedUnique_mem [LinearOrder α] [DecidableEq α] (l : List α) (x : α) :
    x ∈ sortedUnique l ↔ x ∈ l := by
  rw [sortedUnique, List.mem_insertionSort, mem_uniqueFirst]

lemma sortedUnique_sorted [LinearOrder α] [DecidableEq α] (l : List α) :
    (sortedUnique l).Pairwise (· < ·) := by
  have hs : (sortedUnique l).Pairwise (· ≤ ·) :=
    List.sorted_insertionSort (· ≤ ·) (uniqueFirst l)
  have hnd : (sortedUnique l).Nodup :=
    (List.perm_insertionSort _ _).nodup_iff.mpr (nodup_uniqueFirst l)
  exact (hs.and hnd).imp fun h => lt_of_le_of_ne h.1 h.2

lemma sortedUnique_idem [LinearOrder α] [DecidableEq α] (l : List α) :
    sortedUnique (sortedUnique l) = sortedUnique l := by
  have hpw := sortedUnique_sorted l
  have hnd : (sortedUnique l).Nodup := hpw.imp ne_of_lt
  rw [sortedUnique, uniqueFirst_eq_self hnd]
  exact List.Sorted.insertionSort_eq (hpw.imp le_of_lt)

/-- C6: `distinctYears` and `distinctRegions` return strictly sorted,
duplicate-free sequences (strict `Pairwise (· < ·)`, numeric order on
years, the lexicographic order on region name strings), and the
sort-deduplicate kernel is idempotent on both outputs. -/
theorem distinct_sorted_idempotent (rs : List Record) :
    (distinctYears rs).Pairwise (· < ·) ∧
    sortedUnique (distinctYears rs) = distinctYears rs ∧
    (distinctRegions rs).Pairwise (· < ·) ∧
    sortedUnique (distinctRegions rs) = distinctRegions rs :=
  ⟨sortedUnique_sorted _, sortedUnique_idem _, sortedUnique_sorted _, sortedUnique_idem _⟩

lemma pairwise_le_getLast [Preorder α] :
    ∀ {l : List α}, l.Pairwise (· ≤ ·) → ∀ hne : l ≠ [], ∀ x ∈ l, x ≤ l.getLast hne := by
  intro l
  induction l with
  | nil => intro _ hne; cases hne rfl
  | cons a l ih =>
    intro h hne x hx
    cases l with
    | nil =>
      rcases List.mem_cons.mp hx with rfl | hx'
      · exact le_refl _
      · cases hx'
    | cons b l' =>
      rcases List.mem_cons.mp hx with rfl | hx'
      · have hlast_mem : (b :: l').getLast (by simp) ∈ b :: l' := List.getLast_mem _
        have hle := (List.pairwise_cons.mp h).1 _ hlast_mem
        simpa [List.getLast_cons] using hle
      · have hle := ih (List.pairwise_cons.mp h).2 (by simp) x hx'
        simpa [List.getLast_cons] using hle

lemma sortedUnique_getLast_max [LinearOrder α] [DecidableEq α] (l : List α) :
    (sortedUnique l).getLast? = l.max? := by
  rcases eq_or_ne l [] with rfl | hne
  · rfl
  · have hsune : sortedUnique l ≠ [] := by
      obtain ⟨x, hx⟩ := List.exists_mem_of_ne_nil l hne
      intro h0
      have hx' : x ∈ sortedUnique l := (sortedUnique_mem l x).mpr hx
      simp [h0] at hx'
    rw [List.getLast?_eq_getLast _ hsune]
    symm
    refine (@List.max?_eq_some_iff α _ _ _ ⟨fun h h' => le_antisymm h h'⟩
      (fun a => le_refl a) (fun a b => max_choice a b) (fun a b c => max_le_iff) l).mpr
      ⟨?_, ?_⟩
    · exact (sortedUnique_mem l _).mp (List.getLast_mem hsune)
    · intro b hb
      exact pairwise_le_getLast (List.sorted_insertionSort (· ≤ ·) (uniqueFirst l))
        hsune b ((sortedUnique_mem l b).mpr hb)

lemma sortedUnique_head_min [LinearOrder α] [DecidableEq α] (l : List α) :
    (sortedUnique l).head? = l.min? := by
  rcases eq_or_ne l [] with rfl | hne
  · rfl
  · have hsune : sortedUnique l ≠ [] := by
      obtain ⟨x, hx⟩ := List.exists_mem_of_ne_nil l hne
      intro h0
      have hx' : x ∈ sortedUnique l := (sortedUnique_mem l x).mpr hx
      simp [h0] at hx'
    cases hsu : sortedUnique l with
    | nil => exact absurd hsu hsune
    | cons a rest =>
      symm
      refine (@List.min?_eq_some_iff α _ _ _ ⟨fun h h' => le_antisymm h h'⟩
        (fun a => le_refl a) (fun a b => min_choice a b) (fun a b c => le_min_iff) l).mpr
        ⟨?_, ?_⟩
      · exact (sortedUnique_mem l a).mp (hsu ▸ List.mem_cons_self _ _)
      · intro b hb
        have hb' : b ∈ a :: rest := hsu ▸ (sortedUnique_mem l b).mpr hb
        have hsorted : List.Sorted (· ≤ ·) (a :: rest) :=
          hsu ▸ List.sorted_insertionSort (· ≤ ·) (uniqueFirst l)
        rcases List.mem_cons.mp hb' with rfl | hb''
        · exact le_refl _
        · exact List.rel_of_sorted_cons hsorted b hb''

/-- C9: the year selector defaults to `years[len(years)-1]`, which is the
most recent (maximum) year of the derived distinct-year set, and the
region selector defaults to `states[0]`, the first region in lexicographic
(alphabetical) order, i.e. the minimum region name. -/
theorem selector_defaults (rs : List Record) :
    defaultYear (distinctYears rs) = (rs.map (·.year)).max? ∧
    defaultRegion (distinctRegions rs) = (rs.map (·.region)).min? := by
  constructor
  · rw [defaultYear, ← List.getLast?_eq_getElem?, distinctYears]
    exact sortedUnique_getLast_max _
  · rw [defaultRegion, ← List.head?_eq_getElem?, distinctRegions]
    exact sortedUnique_head_min _

lemma sumFold_eq_sum (l : List ℚ) : sumFold l = l.sum := by
  rw [sumFold, List.sum_eq_foldl]

lemma rhe_intCast (n : Int) : rhe (n : ℚ) = n := by
  simp only [rhe, Int.floor_intCast, sub_self]
  norm_num

lemma round3_intCast (n : Int) : round3 (n : ℚ) = n := by
  have hc : ((n : ℚ) * 1000) = ((n * 1000 : Int) : ℚ) := by push_cast; ring
  rw [round3, hc, rhe_intCast]
  push_cast
  field_simp

/-- C4: for a non-empty slice, `nationalMean` is the unweighted arithmetic
mean of the slice's rainfall values rounded to 3 decimal digits; it is
`NaN` (modelled `none`) exactly when the slice is empty. -/
theorem nationalMean_spec (s : List Record) :
    (s ≠ [] → nationalMean s =
      some (round3 ((s.map (·.rain)).sum / (s.length : ℚ)))) ∧
    (nationalMean s = none ↔ s = []) := by
  constructor
  · intro h
    have hne : (s.map (·.rain)).isEmpty = false := by
      simp [List.isEmpty_iff, h]
    rw [nationalMean, seriesMean]
    simp [hne, sumFold_eq_sum]
  · rcases eq_or_ne s [] with rfl | h
    · simp [nationalMean, seriesMean]
    · have hne : (s.map (·.rain)).isEmpty = false := by
        simp [List.isEmpty_iff, h]
      simp [nationalMean, seriesMean, hne, h]

/-- C4 witness: the slice with values [800, 1000, 1200] has national mean
exactly 1000. -/
theorem nationalMean_spec_witness : nationalMean sampleMean3 = some 1000 := by
  have h := (nationalMean_spec sampleMean3).1 (by decide)
  have h2 : ((sampleMean3.map (·.rain)).sum / (sampleMean3.length : ℚ)) =
      ((1000 : Int) : ℚ) := by
    norm_num [sampleMean3]
  rw [h, h2, round3_intCast]
  norm_num

lemma insertionSort_eq_nil_iff (r : α → α → Prop) [DecidableRel r] (l : List α) :
    List.insertionSort r l = [] ↔ l = [] := by
  constructor
  · intro h
    have hl := congrArg List.length h
    rw [List.length_insertionSort] at hl
    exact List.length_eq_zero.mp hl
  · rintro rfl
    rfl

lemma top3_eq_nil_iff (sl : List Record) : top3 sl = [] ↔ sl = [] := by
  rw [top3]
  constructor
  · intro h
    rcases List.take_eq_nil_iff.mp h with h3 | hs
    · exact absurd h3 (by norm_num)
    · exact (insertionSort_eq_nil_iff _ _).mp hs
  · rintro rfl
    rfl

lemma low3_eq_nil_iff (sl : List Record) : low3 sl = [] ↔ sl = [] := by
  rw [low3]
  constructor
  · intro h
    rcases List.take_eq_nil_iff.mp h with h3 | hs
    · exact absurd h3 (by norm_num)
    · exact (insertionSort_eq_nil_iff _ _).mp hs
  · rintro rfl
    rfl

/-- C7: the filter operations are total functions: `sliceByYear` and
`seriesForRegion` return the empty list exactly when no row matches
(never an error), and an empty slice surfaces as the "No data" display
state of the rankings panel rather than a fatal error. -/
theorem filters_total_empty_state (rs : List Record) (y : Int) (g : String) :
    (sliceByYear rs y = [] ↔ ∀ r ∈ rs, r.year ≠ y) ∧
    (seriesForRegion rs g = [] ↔ ∀ r ∈ rs, r.region ≠ g) ∧
    (topDisplay (sliceByYear rs y) = .noData ↔ sliceByYear rs y = []) ∧
    (lowDisplay (sliceByYear rs y) = .noData ↔ sliceByYear rs y = []) := by
  refine ⟨?_, ?_, ?_, ?_⟩
  · rw [sliceByYear, List.filter_eq_nil_iff]
    simp
  · rw [seriesForRegion, insertionSort_eq_nil_iff, List.filter_eq_nil_iff]
    simp
  · rw [topDisplay]
    by_cases h : (top3 (sliceByYear rs y)).isEmpty
    · simp only [h, if_true]
      simp only [List.isEmpty_iff] at h
      simp [(top3_eq_nil_iff _).mp h]
    · simp only [Bool.not_eq_true] at h
      have h2 : top3 (sliceByYear rs y) ≠ [] := by
        intro heq
        rw [heq] at h
        simp at h
      have h' : sliceByYear rs y ≠ [] :=
        fun heq => h2 ((top3_eq_nil_iff _).mpr heq)
      simp [h, h']
  · rw [lowDisplay]
    by_cases h : (low3 (sliceByYear rs y)).isEmpty
    · simp only [h, if_true]
      simp only [List.isEmpty_iff] at h
      simp [(low3_eq_nil_iff _).mp h]
    · simp only [Bool.not_eq_true] at h
      have h2 : low3 (sliceByYear rs y) ≠ [] := by
        intro heq
        rw [heq] at h
        simp at h
      have h' : sliceByYear rs y ≠ [] :=
        fun heq => h2 ((low3_eq_nil_iff _).mpr heq)
      simp [h, h']

lemma parseRows_error_of_bad {l : List MeltRow} {m : MeltRow} (hm : m ∈ l)
    (hbad : yearToken m.yearCol = none) :
    parseRows l = .error .malformedColumn := by
  induction l with
  | nil => cases hm
  | cons m' l ih =>
    rcases List.mem_cons.mp hm with rfl | h'
    · simp [parseRows, hbad]
    · simp only [parseRows]
      cases hy : yearToken m'.yearCol with
      | none => rfl
      | some z => rw [ih h']

/-- C8: the year token of each value column (names of the configured form
`{year}_mean`) is the integer obtained by stripping the `_mean` suffix —
the source's replace-all agrees with the spec's strip-suffix reading on
every such column — and whenever the token of some melted row's column
fails to parse, the reshaping fails with `MalformedColumn`. -/
theorem yearToken_spec :
    (∀ y ∈ yearRangeNat, yearToken (colName y) = some (y : Int) ∧
      yearToken (colName y) = yearTokenStripped (colName y)) ∧
    ∀ (l : List MeltRow) (m : MeltRow), m ∈ l → yearToken m.yearCol = none →
      parseRows l = .error .malformedColumn := by
  refine ⟨by decide, ?_⟩
  intro l m hm hbad
  exact parseRows_error_of_bad hm hbad

/-- C8 witness: the 2014 column parses to 2014, and a malformed column
name ("foo") makes the conversion fail with `MalformedColumn`. -/
theorem yearToken_spec_witness :
    yearToken (colName 2014) = some ((2014 : Nat) : Int) ∧
    parseRows [⟨"A", "foo", 0⟩] = .error .malformedColumn := by
  constructor
  · exact (yearToken_spec.1 2014 (by decide)).1
  · exact yearToken_spec.2 [⟨"A", "foo", 0⟩] ⟨"A", "foo", 0⟩ (by decide) (by decide)

lemma runAll_stable (disk t : List WideRow) :
    ∀ ys : List Nat,
      ys.foldl (fun s y => (scriptRun disk s y).2) ⟨some t⟩ = ⟨some t⟩ := by
  intro ys
  induction ys with
  | nil => rfl
  | cons y ys ih => simpa [scriptRun, load_data] using ih

/-- C2: the cached source table is loaded once and is never mutated for
the lifetime of the process: after any non-empty sequence of script
reruns the cache entry is still exactly the table read from disk at the
first load (the per-run derived `Rainfall (mm)` column of app.py line 58
lands on the run's copy, not on the cache entry). -/
theorem cache_immutable (disk : List WideRow) (ys : List Nat) :
    (runAll disk ys).cache = if ys.isEmpty then none else some disk := by
  cases ys with
  | nil => rfl
  | cons y ys =>
    rw [runAll, List.foldl_cons]
    have hstep : (scriptRun disk ⟨none⟩ y).2 = ⟨some disk⟩ := rfl
    rw [hstep, runAll_stable disk disk ys]
    rfl

lemma rhe_abs_le (q : ℚ) : |(rhe q : ℚ) - q| ≤ 1 / 2 := by
  have h0 : (⌊q⌋ : ℚ) ≤ q := Int.floor_le q
  have h1 : q < ⌊q⌋ + 1 := Int.lt_floor_add_one q
  simp only [rhe]
  split_ifs with hlt hgt hev
  · rw [abs_le]
    constructor <;> linarith
  · rw [abs_le]
    push_cast
    constructor <;> linarith
  · have htie : q - ⌊q⌋ = 1 / 2 := le_antisymm (not_lt.mp hgt) (not_lt.mp hlt)
    rw [abs_le]
    constructor <;> linarith
  · have htie : q - ⌊q⌋ = 1 / 2 := le_antisymm (not_lt.mp hgt) (not_lt.mp hlt)
    rw [abs_le]
    push_cast
    constructor <;> linarith

lemma round3_abs_le (q : ℚ) : |round3 q - q| ≤ 1 / 2000 := by
  have h := rhe_abs_le (q * 1000)
  rw [round3]
  have hdiv : (rhe (q * 1000) : ℚ) / 1000 - q =
      ((rhe (q * 1000) : ℚ) - q * 1000) / 1000 := by ring
  rw [hdiv, abs_div, abs_of_pos (by norm_num : (0 : ℚ) < 1000),
    div_le_iff₀ (by norm_num : (0 : ℚ) < 1000)]
  linarith

/-- A slice whose rounded national mean falls below the slice minimum:
values 1.0002 and 1.0004 mm have mean 1.0003, rounded to 1.000. -/
def cexSlice : List Record :=
  [⟨"A", 2014, 5001 / 5000⟩, ⟨"B", 2014, 2501 / 2500⟩]

/-- C10 counterexample: on `cexSlice` the rounded national mean is 1,
which is strictly below the slice minimum 5001/5000, and the normalized
value fed to the donut-chart color map is negative, hence outside [0, 1]:
the claim fails as stated. -/
theorem rounded_mean_outside_range :
    nationalMean cexSlice = some 1 ∧
    (cexSlice.map (·.rain)).min? = some (5001 / 5000 : ℚ) ∧
    ¬ ((5001 / 5000 : ℚ) ≤ 1) ∧
    normalize (5001 / 5000) (2501 / 2500) 1 < 0 := by
  have hmin : (cexSlice.map (·.rain)).min? = some (5001 / 5000 : ℚ) := by
    simp only [cexSlice, List.map_cons, List.map_nil, List.min?_cons',
      List.foldl_cons, List.foldl_nil]
    norm_num [min_def]
  refine ⟨?_, hmin, by norm_num, by norm_num [normalize]⟩
  have hmean : seriesMean (cexSlice.map (·.rain)) = some (10003 / 10000 : ℚ) := by
    norm_num [seriesMean, sumFold, cexSlice]
  have hfl : ⌊(10003 : ℚ) / 10000 * 1000⌋ = 1000 := by
    norm_num [Int.floor_eq_iff]
  have hrhe : rhe ((10003 : ℚ) / 10000 * 1000) = 1000 := by
    simp only [rhe, hfl]
    norm_num
  have hr3 : round3 ((10003 : ℚ) / 10000) = 1 := by
    rw [round3, hrhe]
    norm_num
  rw [nationalMean, hmean, Option.map_some', hr3]

/-- C10 amended: for every non-empty year slice the exact (unrounded)
national mean lies between the slice minimum and maximum, so the
normalized unrounded mean lies in [0, 1]; the displayed rounded mean can
differ from it by at most 1/2000 and may therefore fall outside
[min, max] (as the counterexample shows). -/
theorem mean_bounds_amended (s : List Record) {μ mn mx : ℚ}
    (hμ : seriesMean (s.map (·.rain)) = some μ)
    (hmn : (s.map (·.rain)).min? = some mn)
    (hmx : (s.map (·.rain)).max? = some mx) :
    nationalMean s = some (round3 μ) ∧
    mn ≤ μ ∧ μ ≤ mx ∧
    |round3 μ - μ| ≤ 1 / 2000 ∧
    (mn < mx → 0 ≤ normalize mn mx μ ∧ normalize mn mx μ ≤ 1) := by
  have hne : (s.map (·.rain)).isEmpty = false := by
    by_contra h
    simp only [Bool.not_eq_false] at h
    simp [seriesMean, h] at hμ
  have hμval : μ = (s.map (·.rain)).sum / ((s.map (·.rain)).length : ℚ) := by
    rw [seriesMean] at hμ
    simp only [hne, Bool.false_eq_true, if_false, Option.some.injEq,
      sumFold_eq_sum] at hμ
    exact hμ.symm
  have hlen : 0 < ((s.map (·.rain)).length : ℚ) := by
    have hne' : s.map (·.rain) ≠ [] := by
      simpa [List.isEmpty_iff] using hne
    exact_mod_cast List.length_pos.mpr hne'
  obtain ⟨hmnmem, hmnle⟩ :=
    (@List.min?_eq_some_iff ℚ _ _ _ ⟨fun h h' => le_antisymm h h'⟩
      (fun a => le_refl a) (fun a b => min_choice a b) (fun a b c => le_min_iff)
      (s.map (·.rain))).mp hmn
  obtain ⟨hmxmem, hmxle⟩ :=
    (@List.max?_eq_some_iff ℚ _ _ _ ⟨fun h h' => le_antisymm h h'⟩
      (fun a => le_refl a) (fun a b => max_choice a b) (fun a b c => max_le_iff)
      (s.map (·.rain))).mp hmx
  have hlow : mn ≤ μ := by
    rw [hμval, le_div_iff₀ hlen]
    have hsum := List.card_nsmul_le_sum (s.map (·.rain)) mn hmnle
    rw [nsmul_eq_mul] at hsum
    linarith
  have hhigh : μ ≤ mx := by
    rw [hμval, div_le_iff₀ hlen]
    have hsum := List.sum_le_card_nsmul (s.map (·.rain)) mx hmxle
    rw [nsmul_eq_mul] at hsum
    linarith
  refine ⟨by rw [nationalMean, hμ, Option.map_some'], hlow, hhigh,
    round3_abs_le μ, ?_⟩
  intro hlt
  rw [normalize]
  constructor
  · exact div_nonneg (by linarith) (by linarith)
  · exact (div_le_one (by linarith)).mpr (by linarith)

/-- C10 amended witness: at the slice with values [800, 1000, 1200] the
exact mean 1000 lies between min 800 and max 1200 and its rounding moves
it by at most 1/2000. -/
theorem mean_bounds_amended_witness :
    nationalMean sampleMean3 = some (round3 1000) ∧
    (800 : ℚ) ≤ 1000 ∧ (1000 : ℚ) ≤ 1200 ∧
    |round3 (1000 : ℚ) - 1000| ≤ 1 / 2000 ∧
    ((800 : ℚ) < 1200 →
      0 ≤ normalize 800 1200 1000 ∧ normalize 800 1200 1000 ≤ 1) :=
  mean_bounds_amended sampleMean3
    (by norm_num [seriesMean, sumFold, sampleMean3]) (by decide) (by decide)

end Rainfall
